import Mathlib

/-!
Verification of the go-key-value-store repository.

The development shallowly embeds the two Go source files:
* `src/main.go` — the store with a dirty flag, JSON snapshot persistence
  (`loadFromDisk` / `saveToDisk`), the periodic sync routine, the HTTP
  handlers and the two shutdown triggers;
* `src/unnamed/part_000` — an earlier variant of the same store without the
  dirty flag and without persistence.

The Go `map[string]string` is embedded as an association list with unique
keys; `kvs.store[key] = value` is in-place replacement or append, and
`value, ok := kvs.store[key]` is first-match lookup.  File-system effects are
embedded as explicit `Disk` states, with a fault flag for every fallible
step of `saveToDisk` (`os.Create`, `Encode`, `Sync`, `Close`, `os.Rename`).
-/

namespace GoKV

/-- First-match lookup in an association list: the embedding of
`value, ok := kvs.store[key]` (the `Option` is `none` exactly when `ok` is
`false`, in which case Go yields the zero value `""`). -/
def mapGet : List (String × String) → String → Option String
  | [], _ => none
  | (k', v') :: rest, k => if k' = k then some v' else mapGet rest k

/-- Update of the association list: the embedding of
`kvs.store[key] = value` — overwrite in place if the key is present,
append otherwise. -/
def mapSet : List (String × String) → String → String → List (String × String)
  | [], k, v => [(k, v)]
  | (k', v') :: rest, k, v =>
    if k' = k then (k, v) :: rest else (k', v') :: mapSet rest k v

/-- The keys of an association list. -/
def keysOf (m : List (String × String)) : List String :=
  m.map Prod.fst

/-- The store of `src/main.go`: the protected map plus the dirty flag
(the `sync.RWMutex` disappears in this sequential embedding). -/
structure KeyValueStore where
  store : List (String × String)
  dirty : Bool
deriving Repr, DecidableEq

/-- `func (kvs *KeyValueStore) Set(key, value string)` from `src/main.go`:
writes the pair and marks the store dirty. -/
def KeyValueStore.Set (kvs : KeyValueStore) (key value : String) : KeyValueStore :=
  { store := mapSet kvs.store key value, dirty := true }

/-- `func (kvs *KeyValueStore) Get(key string) (string, bool)` from
`src/main.go`: `value, ok := kvs.store[key]; return value, ok`. -/
def KeyValueStore.Get (kvs : KeyValueStore) (key : String) : String × Bool :=
  match mapGet kvs.store key with
  | some value => (value, true)
  | none => ("", false)

/-- `func (kvs *KeyValueStore) Count() int` from `src/main.go`:
`return len(kvs.store)`. -/
def KeyValueStore.Count (kvs : KeyValueStore) : Nat :=
  kvs.store.length

namespace Part000

/-- The store of `src/unnamed/part_000`: the map alone, no dirty flag. -/
structure KeyValueStore where
  store : List (String × String)
deriving Repr, DecidableEq

/-- `Set` from `src/unnamed/part_000`: writes the pair, nothing else. -/
def KeyValueStore.Set (kvs : KeyValueStore) (key value : String) : KeyValueStore :=
  { store := mapSet kvs.store key value }

/-- `Get` from `src/unnamed/part_000`, identical body to the main variant. -/
def KeyValueStore.Get (kvs : KeyValueStore) (key : String) : String × Bool :=
  match mapGet kvs.store key with
  | some value => (value, true)
  | none => ("", false)

/-- `Count` from `src/unnamed/part_000`, identical body to the main variant. -/
def KeyValueStore.Count (kvs : KeyValueStore) : Nat :=
  kvs.store.length

end Part000

/-- The value written by the last `Set` to key `k` in a sequence of
(key, value) write operations, if any.  Used to state what `Get` must
observe after a sequence of writes. -/
def lastWrite : List (String × String) → String → Option String
  | [], _ => none
  | p :: ops, k => (lastWrite ops k).or (if p.1 = k then some p.2 else none)

/-- The possible states of the snapshot file `kvstore.json` on disk:
absent, unreadable (`os.Open` fails with a non-`IsNotExist` error), present
but not decodable as JSON, or a decodable JSON object, i.e. a sequence of
key/value entries. -/
inductive FileState where
  | absent
  | unreadable
  | corrupt
  | valid (entries : List (String × String))
deriving Repr, DecidableEq

/-- The errors `loadFromDisk` can return: a failing `os.Open` (other than
not-exist) or a failing JSON decode. -/
inductive LoadError where
  | openFailed
  | decodeFailed
deriving Repr, DecidableEq

/-- Decoding a JSON object into a `map[string]string`: entries are inserted
in order, a later duplicate key overwriting an earlier one. -/
def decodeStore (entries : List (String × String)) : List (String × String) :=
  entries.foldl (fun m p => mapSet m p.1 p.2) []

/-- Encoding a `map[string]string` with `encoding/json`: the entries,
keys in sorted order. -/
def encodeStore (m : List (String × String)) : List (String × String) :=
  m.mergeSort (fun a b => decide (a.1 ≤ b.1))

/-- `func (kvs *KeyValueStore) loadFromDisk() error` from `src/main.go`:
a missing file yields the empty store, any other open error or a decode
error is returned, and otherwise the decoded entries become the store. -/
def loadFromDisk : FileState → Except LoadError (List (String × String))
  | .absent => .ok []
  | .unreadable => .error .openFailed
  | .corrupt => .error .decodeFailed
  | .valid entries => .ok (decodeStore entries)

/-- `func NewKeyValueStore() (*KeyValueStore, error)` from `src/main.go`:
build the store from `loadFromDisk`, propagating its error. -/
def NewKeyValueStore (fs : FileState) : Except LoadError KeyValueStore :=
  match loadFromDisk fs with
  | .ok m => .ok { store := m, dirty := false }
  | .error e => .error e

/-- The start of `func main()` in `src/main.go`: if `NewKeyValueStore`
returns an error, `log.Fatalf` aborts the process (`none`); otherwise the
process starts with the loaded store. -/
def startProcess (fs : FileState) : Option KeyValueStore :=
  match NewKeyValueStore fs with
  | .ok kvs => some kvs
  | .error _ => none

/-- The state of the temporary file `kvstore.json.tmp`: either a complete
encoded record set or a truncated/partial write (encode failed midway). -/
inductive TempFile where
  | complete (entries : List (String × String))
  | truncated
deriving Repr, DecidableEq

/-- The directory holding the snapshot file and, transiently, the
temporary file. -/
structure Disk where
  snapshot : FileState
  temp : Option TempFile
deriving Repr, DecidableEq

/-- Fault injection for the five fallible steps of `saveToDisk`:
`os.Create`, `Encode`, `file.Sync`, `file.Close`, `os.Rename`. -/
structure SaveFaults where
  createFails : Bool
  encodeFails : Bool
  syncFails : Bool
  closeFails : Bool
  renameFails : Bool
deriving Repr, DecidableEq

/-- The fault environment in which every step succeeds. -/
def noFaults : SaveFaults :=
  ⟨false, false, false, false, false⟩

/-- The five fallible steps of `saveToDisk`, also used as its error values. -/
inductive SaveStep where
  | create
  | encode
  | sync
  | close
  | rename
deriving Repr, DecidableEq

/-- The first step of `saveToDisk` that the fault environment makes fail,
if any: the steps run in program order, so the first injected fault is the
one reported. -/
def firstFault (f : SaveFaults) : Option SaveStep :=
  if f.createFails then some .create
  else if f.encodeFails then some .encode
  else if f.syncFails then some .sync
  else if f.closeFails then some .close
  else if f.renameFails then some .rename
  else none

/-- Everything `saveToDisk` produces: the store and disk after the call,
the returned error (if any), the I/O steps that were attempted, and the
trace of snapshot-file states observable after each attempted step
(the head is the state on entry). -/
structure SaveOut where
  kvs : KeyValueStore
  disk : Disk
  result : Except SaveStep Unit
  ios : List SaveStep
  snapshots : List FileState
deriving Repr

/-- `func (kvs *KeyValueStore) saveToDisk() error` from `src/main.go`,
step by step under the fault environment `f`:
return `nil` at once when not dirty; otherwise create the temporary file,
encode the store into it (closing the file and returning on error), sync
it, close it, rename it over `kvstore.json` — each step returning its error
on failure — and clear the dirty flag only after the rename succeeded.
The rename is the only step that assigns the `snapshot` component, which is
how POSIX rename atomicity enters the model. -/
def saveToDisk (f : SaveFaults) (kvs : KeyValueStore) (d : Disk) : SaveOut :=
  if kvs.dirty = false then
    { kvs := kvs, disk := d, result := .ok (), ios := [], snapshots := [d.snapshot] }
  else if f.createFails then
    { kvs := kvs, disk := d, result := .error .create,
      ios := [.create], snapshots := [d.snapshot, d.snapshot] }
  else
    let d1 : Disk := { d with temp := some (.complete []) }
    if f.encodeFails then
      let d2 : Disk := { d1 with temp := some .truncated }
      { kvs := kvs, disk := d2, result := .error .encode,
        ios := [.create, .encode, .close],
        snapshots := [d.snapshot, d1.snapshot, d2.snapshot] }
    else
      let d2 : Disk := { d1 with temp := some (.complete (encodeStore kvs.store)) }
      if f.syncFails then
        { kvs := kvs, disk := d2, result := .error .sync,
          ios := [.create, .encode, .sync, .close],
          snapshots := [d.snapshot, d1.snapshot, d2.snapshot, d2.snapshot] }
      else if f.closeFails then
        { kvs := kvs, disk := d2, result := .error .close,
          ios := [.create, .encode, .sync, .close],
          snapshots := [d.snapshot, d1.snapshot, d2.snapshot, d2.snapshot, d2.snapshot] }
      else if f.renameFails then
        { kvs := kvs, disk := d2, result := .error .rename,
          ios := [.create, .encode, .sync, .close, .rename],
          snapshots := [d.snapshot, d1.snapshot, d2.snapshot, d2.snapshot, d2.snapshot,
            d2.snapshot] }
      else
        let d3 : Disk := { snapshot := .valid (encodeStore kvs.store), temp := none }
        { kvs := { kvs with dirty := false }, disk := d3, result := .ok (),
          ios := [.create, .encode, .sync, .close, .rename],
          snapshots := [d.snapshot, d1.snapshot, d2.snapshot, d2.snapshot, d2.snapshot,
            d3.snapshot] }

/-- One observable operation on the running system of `src/main.go`:
`Op.save` is a tick of the sync routine (`startSyncRoutine` calling
`kvs.saveToDisk()`) under a given fault environment; `Op.get` and
`Op.count` do not touch the state. -/
inductive Op where
  | set (key value : String)
  | get (key : String)
  | count
  | save (f : SaveFaults)

/-- The state transition each operation induces on (store, disk). -/
def stepOp : Op → KeyValueStore × Disk → KeyValueStore × Disk
  | .set k v, (kvs, d) => (kvs.Set k v, d)
  | .get _, (kvs, d) => (kvs, d)
  | .count, (kvs, d) => (kvs, d)
  | .save f, (kvs, d) => ((saveToDisk f kvs d).kvs, (saveToDisk f kvs d).disk)

/-- The (store, disk) states the process can reach: a successful
`startProcess` on some file state (with arbitrary leftover temporary
file), followed by any sequence of operations. -/
inductive Reachable : KeyValueStore → Disk → Prop where
  | start (fs : FileState) (kvs : KeyValueStore) (t : Option TempFile) :
      startProcess fs = some kvs → Reachable kvs ⟨fs, t⟩
  | step (op : Op) (kvs : KeyValueStore) (d : Disk) :
      Reachable kvs d → Reachable (stepOp op (kvs, d)).1 (stepOp op (kvs, d)).2

/-- The system invariant: the store's keys are distinct (it embeds a Go
map), and whenever the dirty flag is clear the snapshot file decodes to a
record set with the same contents as the in-memory store. -/
def GoodState (kvs : KeyValueStore) (d : Disk) : Prop :=
  (keysOf kvs.store).Nodup ∧
    (kvs.dirty = false → ∃ m, loadFromDisk d.snapshot = .ok m ∧
      (keysOf m).Nodup ∧ ∀ k, mapGet m k = mapGet kvs.store k)

/-- The two shutdown triggers of `src/main.go`: a process signal
(SIGINT/SIGTERM) or a connection accepted on the TCP control listener. -/
inductive ShutdownTrigger where
  | signal
  | tcpConn
deriving Repr, DecidableEq

/-- The shutdown-relevant actions `main` can take: `cancel()` on the sync
routine's context, `server.Shutdown`, and `os.Exit`. -/
inductive MainAction where
  | cancelScheduler
  | shutdownHTTP
  | exitProcess
deriving Repr, DecidableEq

/-- `func gracefulShutdown(server *http.Server)` from `src/main.go`:
`server.Shutdown(ctx)` then `os.Exit(0)`. -/
def gracefulShutdown : List MainAction :=
  [.shutdownHTTP, .exitProcess]

/-- The action sequence each trigger causes in `func main()` of
`src/main.go`: the signal path is `<-quit; cancel();
gracefulShutdown(server)`, while the TCP-listener goroutine runs
`listener.Accept(); gracefulShutdown(server)` — no `cancel()` (and
`os.Exit` inside `gracefulShutdown` never runs the deferred one). -/
def shutdownActions : ShutdownTrigger → List MainAction
  | .signal => .cancelScheduler :: gracefulShutdown
  | .tcpConn => gracefulShutdown

/-- The HTTP methods the handlers distinguish. -/
inductive HttpMethod where
  | GET
  | POST
  | PUT
  | DELETE
deriving Repr, DecidableEq

/-- `type SetRequest struct` from `src/main.go`. -/
structure SetRequest where
  key : String
  value : String
deriving Repr, DecidableEq

/-- An incoming `/set` request as the handler observes it: its method,
whether `ioutil.ReadAll` succeeds on the body, and the result of
`json.Unmarshal` on the bytes read (`none` when they are not valid JSON
for a `SetRequest`). -/
structure SetHttpRequest where
  method : HttpMethod
  bodyReadOk : Bool
  parsedBody : Option SetRequest
deriving Repr, DecidableEq

/-- The JSON reply body of the `/set` handler. -/
inductive HandlerReply where
  | okStatus
  | errorMsg (msg : String)
deriving Repr, DecidableEq

/-- `func (kvs *KeyValueStore) handleSet` from `src/main.go`: 405 unless
POST; 400 when the body read fails, the JSON does not parse, or the key is
empty; otherwise `kvs.Set(req.Key, req.Value)` and 200 with status OK. -/
def handleSet (kvs : KeyValueStore) (r : SetHttpRequest) :
    KeyValueStore × Nat × HandlerReply :=
  if r.method ≠ .POST then
    (kvs, 405, .errorMsg "Method not allowed")
  else if r.bodyReadOk = false then
    (kvs, 400, .errorMsg "Error reading request body")
  else
    match r.parsedBody with
    | none => (kvs, 400, .errorMsg "Error parsing JSON")
    | some req =>
      if req.key = "" then
        (kvs, 400, .errorMsg "Missing key")
      else
        (kvs.Set req.key req.value, 200, .okStatus)

/-- Run a sequence of `Set` calls on an initially empty store. -/
def runSets (ops : List (String × String)) : KeyValueStore :=
  ops.foldl (fun kvs p => kvs.Set p.1 p.2) ⟨[], false⟩

/-- An operation on the store interface shared by the two source variants. -/
inductive StoreOp where
  | set (key value : String)
  | get (key : String)
  | count

/-- The value returned by one store operation. -/
inductive StoreOut where
  | done
  | found (value : String) (ok : Bool)
  | total (n : Nat)
deriving Repr, DecidableEq

/-- One operation against the `src/main.go` store. -/
def stepStore (kvs : KeyValueStore) : StoreOp → KeyValueStore × StoreOut
  | .set k v => (kvs.Set k v, .done)
  | .get k => (kvs, .found (kvs.Get k).1 (kvs.Get k).2)
  | .count => (kvs, .total kvs.Count)

/-- Run a call sequence against the `src/main.go` store, collecting the
returned values. -/
def runStore (kvs : KeyValueStore) : List StoreOp → KeyValueStore × List StoreOut
  | [] => (kvs, [])
  | op :: ops =>
    let s1 := stepStore kvs op
    let s2 := runStore s1.1 ops
    (s2.1, s1.2 :: s2.2)

namespace Part000

/-- One operation against the `src/unnamed/part_000` store. -/
def stepStore (kvs : KeyValueStore) : StoreOp → KeyValueStore × StoreOut
  | .set k v => (kvs.Set k v, .done)
  | .get k => (kvs, .found (kvs.Get k).1 (kvs.Get k).2)
  | .count => (kvs, .total kvs.Count)

/-- Run a call sequence against the `src/unnamed/part_000` store. -/
def runStore (kvs : KeyValueStore) : List StoreOp → KeyValueStore × List StoreOut
  | [] => (kvs, [])
  | op :: ops =>
    let s1 := stepStore kvs op
    let s2 := runStore s1.1 ops
    (s2.1, s1.2 :: s2.2)

end Part000

/-! Basic lemmas about the map embedding. -/

theorem mapGet_mapSet (m : List (String × String)) (k' v' k : String) :
    mapGet (mapSet m k' v') k = if k' = k then some v' else mapGet m k := by
  induction m with
  | nil => by_cases h : k' = k <;> simp [mapSet, mapGet, h]
  | cons p rest ih =>
    rcases p with ⟨pk, pv⟩
    by_cases h1 : pk = k'
    · subst h1
      by_cases h2 : pk = k <;> simp [mapSet, mapGet, h2]
    · by_cases h2 : pk = k
      · subst h2
        have h3 : ¬ k' = pk := fun h => h1 h.symm
        simp [mapSet, mapGet, h1, h3]
      · simp [mapSet, mapGet, h1, h2, ih]

theorem mapGet_eq_none_iff (m : List (String × String)) (k : String) :
    mapGet m k = none ↔ k ∉ keysOf m := by
  induction m with
  | nil => simp [mapGet, keysOf]
  | cons p rest ih =>
    rcases p with ⟨pk, pv⟩
    by_cases h : pk = k
    · simp [mapGet, keysOf, h]
    · have h2 : ¬ k = pk := fun h2 => h h2.symm
      simp only [keysOf] at ih
      simp [mapGet, keysOf, h, h2, ih]

theorem mem_keysOf_iff (m : List (String × String)) (k : String) :
    k ∈ keysOf m ↔ mapGet m k ≠ none := by
  constructor
  · intro hk hn
    exact (mapGet_eq_none_iff m k).mp hn hk
  · intro h
    by_contra h2
    exact h ((mapGet_eq_none_iff m k).mpr h2)

theorem keysOf_mapSet (m : List (String × String)) (k v : String) :
    keysOf (mapSet m k v) = if k ∈ keysOf m then keysOf m else keysOf m ++ [k] := by
  induction m with
  | nil => simp [mapSet, keysOf]
  | cons p rest ih =>
    rcases p with ⟨pk, pv⟩
    by_cases h : pk = k
    · subst h
      simp [mapSet, keysOf]
    · have h2 : ¬ k = pk := fun h2 => h h2.symm
      simp only [keysOf] at ih
      by_cases hm : k ∈ List.map Prod.fst rest
      · simp [mapSet, keysOf, h, h2, hm, ih]
      · simp [mapSet, keysOf, h, h2, hm, ih]

theorem keysOf_mapSet_nodup (m : List (String × String)) (k v : String)
    (h : (keysOf m).Nodup) : (keysOf (mapSet m k v)).Nodup := by
  rw [keysOf_mapSet]
  by_cases hm : k ∈ keysOf m <;> simp [hm, h, List.nodup_append]

theorem length_mapSet (m : List (String × String)) (k v : String) :
    (mapSet m k v).length = if k ∈ keysOf m then m.length else m.length + 1 := by
  have h := congrArg List.length (keysOf_mapSet m k v)
  simp only [keysOf, List.length_map] at h
  by_cases hm : k ∈ keysOf m <;> simp only [keysOf] at hm <;>
    simpa [keysOf, hm] using h

theorem mapGet_foldl_mapSet (l acc : List (String × String)) (k : String) :
    mapGet (l.foldl (fun m p => mapSet m p.1 p.2) acc) k
      = (lastWrite l k).or (mapGet acc k) := by
  induction l generalizing acc with
  | nil => simp [lastWrite]
  | cons p l ih =>
    rcases p with ⟨pk, pv⟩
    show mapGet (l.foldl (fun m p => mapSet m p.1 p.2) (mapSet acc pk pv)) k = _
    rw [ih, mapGet_mapSet, lastWrite, Option.or_assoc]
    by_cases h : pk = k <;> simp [h]

theorem lastWrite_eq_none_of_not_mem (l : List (String × String)) (k : String)
    (h : k ∉ keysOf l) : lastWrite l k = none := by
  induction l with
  | nil => rfl
  | cons p l ih =>
    simp only [keysOf, List.map_cons, List.mem_cons] at h
    push_neg at h
    have h1 : ¬ p.1 = k := fun he => h.1 he.symm
    simp [lastWrite, h1, ih (by simpa [keysOf] using h.2)]

theorem lastWrite_eq_mapGet (l : List (String × String)) (k : String)
    (h : (keysOf l).Nodup) : lastWrite l k = mapGet l k := by
  induction l with
  | nil => rfl
  | cons p l ih =>
    rcases p with ⟨pk, pv⟩
    simp only [keysOf, List.map_cons, List.nodup_cons] at h
    by_cases he : pk = k
    · subst he
      rw [lastWrite, lastWrite_eq_none_of_not_mem l pk (by simpa [keysOf] using h.1)]
      simp [mapGet]
    · simp [lastWrite, mapGet, he, ih (by simpa [keysOf] using h.2)]

theorem mapGet_eq_some_iff (m : List (String × String)) (k v : String)
    (h : (keysOf m).Nodup) : mapGet m k = some v ↔ (k, v) ∈ m := by
  induction m with
  | nil => simp [mapGet]
  | cons p rest ih =>
    rcases p with ⟨pk, pv⟩
    simp only [keysOf, List.map_cons, List.nodup_cons] at h
    by_cases he : pk = k
    · subst he
      have hk : (pk, v) ∉ rest := fun hmem => by
        have : pk ∈ List.map Prod.fst rest := List.mem_map_of_mem Prod.fst hmem
        exact h.1 this
      simp [mapGet, hk]
      exact comm
    · have h2 : (k, v) ≠ (pk, pv) := by
        intro he2
        exact he (congrArg Prod.fst he2).symm
      simp [mapGet, he, ih (by simpa [keysOf] using h.2), h2]

theorem mapGet_perm (m₁ m₂ : List (String × String)) (k : String)
    (hp : List.Perm m₁ m₂) (h₁ : (keysOf m₁).Nodup) :
    mapGet m₁ k = mapGet m₂ k := by
  have h₂ : (keysOf m₂).Nodup := by
    have : List.Perm (keysOf m₁) (keysOf m₂) := hp.map Prod.fst
    exact (this.nodup_iff).mp h₁
  cases hg : mapGet m₁ k with
  | none =>
    have hk : k ∉ keysOf m₁ := (mapGet_eq_none_iff m₁ k).mp hg
    have hk₂ : k ∉ keysOf m₂ := fun hm =>
      hk ((hp.map Prod.fst).mem_iff.mpr hm)
    exact ((mapGet_eq_none_iff m₂ k).mpr hk₂).symm
  | some v =>
    have hm : (k, v) ∈ m₁ := (mapGet_eq_some_iff m₁ k v h₁).mp hg
    exact ((mapGet_eq_some_iff m₂ k v h₂).mpr (hp.mem_iff.mp hm)).symm

/-! Encode/decode round-trip lemmas. -/

theorem mapGet_decodeStore (l : List (String × String)) (k : String) :
    mapGet (decodeStore l) k = lastWrite l k := by
  rw [decodeStore, mapGet_foldl_mapSet]
  simp [mapGet]

theorem keysOf_foldl_mapSet_nodup (l acc : List (String × String))
    (h : (keysOf acc).Nodup) :
    (keysOf (l.foldl (fun m p => mapSet m p.1 p.2) acc)).Nodup := by
  induction l generalizing acc with
  | nil => exact h
  | cons p l ih => exact ih (mapSet acc p.1 p.2) (keysOf_mapSet_nodup acc p.1 p.2 h)

theorem keysOf_decodeStore_nodup (l : List (String × String)) :
    (keysOf (decodeStore l)).Nodup :=
  keysOf_foldl_mapSet_nodup l [] (by simp [keysOf])

theorem encodeStore_perm (m : List (String × String)) :
    List.Perm (encodeStore m) m :=
  List.mergeSort_perm m _

theorem mapGet_decode_encode (m : List (String × String))
    (h : (keysOf m).Nodup) (k : String) :
    mapGet (decodeStore (encodeStore m)) k = mapGet m k := by
  have hperm := encodeStore_perm m
  have hnd : (keysOf (encodeStore m)).Nodup :=
    ((hperm.map Prod.fst).nodup_iff).mpr h
  rw [mapGet_decodeStore, lastWrite_eq_mapGet _ _ hnd]
  exact mapGet_perm _ _ k hperm hnd

/-! Characterization of `saveToDisk` by fault environment. -/

theorem saveToDisk_not_dirty (f : SaveFaults) (kvs : KeyValueStore) (d : Disk)
    (h : kvs.dirty = false) :
    saveToDisk f kvs d = ⟨kvs, d, .ok (), [], [d.snapshot]⟩ := by
  simp [saveToDisk, h]

theorem saveToDisk_ok_eq (f : SaveFaults) (kvs : KeyValueStore) (d : Disk)
    (h : kvs.dirty = true) (hf : firstFault f = none) :
    saveToDisk f kvs d =
      ⟨⟨kvs.store, false⟩, ⟨.valid (encodeStore kvs.store), none⟩, .ok (),
        [.create, .encode, .sync, .close, .rename],
        [d.snapshot, d.snapshot, d.snapshot, d.snapshot, d.snapshot,
          .valid (encodeStore kvs.store)]⟩ := by
  rcases f with ⟨c, e, s, cl, r⟩
  cases c <;> cases e <;> cases s <;> cases cl <;> cases r <;>
    simp_all [saveToDisk, firstFault]

theorem saveToDisk_err (f : SaveFaults) (kvs : KeyValueStore) (d : Disk)
    (st : SaveStep) (h : kvs.dirty = true) (hf : firstFault f = some st) :
    (saveToDisk f kvs d).kvs = kvs ∧
    (saveToDisk f kvs d).disk.snapshot = d.snapshot ∧
    (saveToDisk f kvs d).result = .error st ∧
    ∀ s ∈ (saveToDisk f kvs d).snapshots, s = d.snapshot := by
  rcases f with ⟨c, e, s', cl, r⟩
  cases c <;> cases e <;> cases s' <;> cases cl <;> cases r <;>
    simp_all [saveToDisk, firstFault]

theorem saveToDisk_store_eq (f : SaveFaults) (kvs : KeyValueStore) (d : Disk) :
    (saveToDisk f kvs d).kvs.store = kvs.store := by
  cases h : kvs.dirty
  · rw [saveToDisk_not_dirty f kvs d h]
  · cases hf : firstFault f with
    | none => rw [saveToDisk_ok_eq f kvs d h hf]
    | some st => rw [(saveToDisk_err f kvs d st h hf).1]

/-- Every reachable (store, disk) state satisfies the system invariant. -/
theorem goodState_of_reachable (kvs : KeyValueStore) (d : Disk)
    (hr : Reachable kvs d) : GoodState kvs d := by
  induction hr with
  | start fs kvs t h =>
    cases fs with
    | absent =>
      simp only [startProcess, NewKeyValueStore, loadFromDisk] at h
      cases h
      exact ⟨by simp [keysOf], fun _ => ⟨[], rfl, by simp [keysOf], fun k => rfl⟩⟩
    | unreadable => simp [startProcess, NewKeyValueStore, loadFromDisk] at h
    | corrupt => simp [startProcess, NewKeyValueStore, loadFromDisk] at h
    | valid entries =>
      simp only [startProcess, NewKeyValueStore, loadFromDisk] at h
      cases h
      exact ⟨keysOf_decodeStore_nodup entries,
        fun _ => ⟨decodeStore entries, rfl, keysOf_decodeStore_nodup entries,
          fun k => rfl⟩⟩
  | step op kvs d hr ih =>
    rcases ih with ⟨hnd, hsync⟩
    cases op with
    | set k v =>
      refine ⟨keysOf_mapSet_nodup kvs.store k v hnd, ?_⟩
      intro hfalse
      simp [stepOp, KeyValueStore.Set] at hfalse
    | get k => exact ⟨hnd, hsync⟩
    | count => exact ⟨hnd, hsync⟩
    | save f =>
      cases hd : kvs.dirty
      · rw [show stepOp (.save f) (kvs, d) = (kvs, d) by
          simp [stepOp, saveToDisk_not_dirty f kvs d hd]]
        exact ⟨hnd, hsync⟩
      · cases hf : firstFault f with
        | none =>
          rw [show stepOp (.save f) (kvs, d)
              = (⟨kvs.store, false⟩, ⟨.valid (encodeStore kvs.store), none⟩) by
            simp [stepOp, saveToDisk_ok_eq f kvs d hd hf]]
          refine ⟨hnd, fun _ => ⟨decodeStore (encodeStore kvs.store), rfl,
            keysOf_decodeStore_nodup _, fun k => mapGet_decode_encode kvs.store hnd k⟩⟩
        | some st =>
          obtain ⟨hk, hs, _, _⟩ := saveToDisk_err f kvs d st hd hf
          refine ⟨by simpa [stepOp, hk] using hnd, ?_⟩
          intro hfalse
          simp only [stepOp, hk] at hfalse ⊢
          rw [hd] at hfalse
          cases hfalse

theorem foldl_set_store (ops : List (String × String)) (kvs : KeyValueStore) :
    (ops.foldl (fun s p => KeyValueStore.Set s p.1 p.2) kvs).store
      = ops.foldl (fun m p => mapSet m p.1 p.2) kvs.store := by
  induction ops generalizing kvs with
  | nil => rfl
  | cons p ops ih => simpa [KeyValueStore.Set] using ih (kvs.Set p.1 p.2)

theorem runSets_store (ops : List (String × String)) :
    (runSets ops).store = ops.foldl (fun m p => mapSet m p.1 p.2) [] :=
  foldl_set_store ops ⟨[], false⟩

theorem mapGet_runSets (ops : List (String × String)) (k : String) :
    mapGet (runSets ops).store k = lastWrite ops k := by
  rw [runSets_store, mapGet_foldl_mapSet]
  simp [mapGet]

theorem length_foldl_mapSet (ops acc : List (String × String))
    (h : (keysOf acc ++ ops.map Prod.fst).Nodup) :
    (ops.foldl (fun m p => mapSet m p.1 p.2) acc).length
      = acc.length + ops.length := by
  induction ops generalizing acc with
  | nil => simp
  | cons p ops ih =>
    rcases p with ⟨k, v⟩
    have hk : k ∉ keysOf acc := by
      rcases List.nodup_append.mp h with ⟨_, _, hdisj⟩
      intro hmem
      exact hdisj hmem (by simp)
    have hlen : (mapSet acc k v).length = acc.length + 1 := by
      rw [length_mapSet]
      simp [hk]
    have hkeys : keysOf (mapSet acc k v) = keysOf acc ++ [k] := by
      rw [keysOf_mapSet]
      simp [hk]
    have hnd : (keysOf (mapSet acc k v) ++ ops.map Prod.fst).Nodup := by
      rw [hkeys, List.append_assoc]
      simpa using h
    rw [List.foldl_cons, ih (mapSet acc k v) hnd, hlen, List.length_cons]
    omega

/-! Settling the claims. -/

/-- C1: the spec requires every shutdown trigger to cancel the Sync
Scheduler (forcing its final flush) before the HTTP listener stops and the
process exits.  The code satisfies this on the signal path, but the TCP
control-listener path calls `gracefulShutdown` — `server.Shutdown` then
`os.Exit(0)` — without ever cancelling the sync routine's context, so on
that trigger the process exits with the scheduler still uncancelled. -/
theorem tcp_trigger_skips_scheduler_cancel :
    shutdownActions .tcpConn = [.shutdownHTTP, .exitProcess] ∧
    MainAction.cancelScheduler ∉ shutdownActions .tcpConn ∧
    MainAction.exitProcess ∈ shutdownActions .tcpConn ∧
    shutdownActions .signal = [.cancelScheduler, .shutdownHTTP, .exitProcess] := by
  exact ⟨rfl, by decide, by decide, rfl⟩

/-- C2: on a dirty store, a `saveToDisk` in which some step fails returns
that step's error with the dirty flag still true and the snapshot file
unchanged; at every observation point the snapshot file holds either the
previous snapshot or the new complete snapshot, and all observation points
before the final (rename) one still hold the previous snapshot. -/
theorem saveToDisk_atomic (f : SaveFaults) (kvs : KeyValueStore) (d : Disk)
    (hd : kvs.dirty = true) :
    (∀ st, firstFault f = some st →
      (saveToDisk f kvs d).result = Except.error st ∧
      (saveToDisk f kvs d).kvs.dirty = true ∧
      (saveToDisk f kvs d).disk.snapshot = d.snapshot) ∧
    (∀ s ∈ (saveToDisk f kvs d).snapshots,
      s = d.snapshot ∨ s = FileState.valid (encodeStore kvs.store)) ∧
    (∀ s ∈ (saveToDisk f kvs d).snapshots.dropLast, s = d.snapshot) := by
  cases hf : firstFault f with
  | none =>
    rw [saveToDisk_ok_eq f kvs d hd hf]
    refine ⟨?_, ?_, ?_⟩
    · intro st hst
      cases hst
    · intro s hs
      simp only [List.mem_cons, List.not_mem_nil, or_false] at hs
      rcases hs with rfl | rfl | rfl | rfl | rfl | rfl <;> simp
    · intro s hs
      simp only [List.dropLast, List.mem_cons, List.not_mem_nil, or_false] at hs
      rcases hs with rfl | rfl | rfl | rfl | rfl <;> rfl
  | some st' =>
    obtain ⟨hk, hs, hr, hall⟩ := saveToDisk_err f kvs d st' hd hf
    refine ⟨?_, fun s hsm => Or.inl (hall s hsm),
      fun s hsm => hall s (List.dropLast_subset _ hsm)⟩
    intro st hst
    injection hst with he
    subst he
    exact ⟨hr, by rw [hk]; exact hd, hs⟩

/-- C2 witness: with the encode step failing on a dirty singleton store,
`saveToDisk` returns the encode error, keeps the dirty flag, and leaves the
(absent) snapshot file untouched. -/
theorem saveToDisk_atomic_witness :
    (saveToDisk ⟨false, true, false, false, false⟩ ⟨[("a", "1")], true⟩
        ⟨.absent, none⟩).result = Except.error .encode ∧
    (saveToDisk ⟨false, true, false, false, false⟩ ⟨[("a", "1")], true⟩
        ⟨.absent, none⟩).kvs.dirty = true ∧
    (saveToDisk ⟨false, true, false, false, false⟩ ⟨[("a", "1")], true⟩
        ⟨.absent, none⟩).disk.snapshot = .absent :=
  (saveToDisk_atomic ⟨false, true, false, false, false⟩ ⟨[("a", "1")], true⟩
    ⟨.absent, none⟩ rfl).1 .encode rfl

/-- C3: every `Set` leaves the dirty flag true, and the only operation
that takes the dirty flag from true to false is a `saveToDisk` in which
every step (create, encode, sync, close, rename) succeeded. -/
theorem dirty_flag_invariant (op : Op) (kvs : KeyValueStore) (d : Disk) :
    (∀ k v, (stepOp (.set k v) (kvs, d)).1.dirty = true) ∧
    (kvs.dirty = true → (stepOp op (kvs, d)).1.dirty = false →
      ∃ f, op = .save f ∧ firstFault f = none ∧
        (saveToDisk f kvs d).result = .ok ()) := by
  constructor
  · intro k v
    rfl
  · intro hd hfalse
    cases op with
    | set k v => simp [stepOp, KeyValueStore.Set] at hfalse
    | get k =>
      simp only [stepOp] at hfalse
      rw [hd] at hfalse
      cases hfalse
    | count =>
      simp only [stepOp] at hfalse
      rw [hd] at hfalse
      cases hfalse
    | save f =>
      cases hf : firstFault f with
      | none =>
        refine ⟨f, rfl, hf, ?_⟩
        rw [saveToDisk_ok_eq f kvs d hd hf]
      | some st =>
        obtain ⟨hk, _, _, _⟩ := saveToDisk_err f kvs d st hd hf
        simp only [stepOp, hk] at hfalse
        rw [hd] at hfalse
        cases hfalse

/-- C3 witness: a `Set` on the empty store leaves dirty true, and the
fault-free save on a dirty store is the (successful) flush the invariant
allows to clear it. -/
theorem dirty_flag_invariant_witness :
    (stepOp (.set "x" "y") (⟨[], false⟩, ⟨.absent, none⟩)).1.dirty = true ∧
    ∃ f, Op.save noFaults = Op.save f ∧ firstFault f = none ∧
      (saveToDisk f ⟨[("a", "1")], true⟩ ⟨.absent, none⟩).result = .ok () :=
  ⟨(dirty_flag_invariant (.set "x" "y") ⟨[], false⟩ ⟨.absent, none⟩).1 "x" "y",
   (dirty_flag_invariant (.save noFaults) ⟨[("a", "1")], true⟩ ⟨.absent, none⟩).2
     rfl (by rfl)⟩

/-- C4: from any reachable (store, disk) state, flushing with no faults and
reloading the resulting snapshot file, as a restart would, yields a record
set with exactly the keys of the in-memory store at flush time, each bound
to the same value. -/
theorem save_load_roundtrip (kvs : KeyValueStore) (d : Disk)
    (hr : Reachable kvs d) :
    ∃ m, loadFromDisk (saveToDisk noFaults kvs d).disk.snapshot = .ok m ∧
      (∀ k, mapGet m k = mapGet kvs.store k) ∧
      (∀ k, k ∈ keysOf m ↔ k ∈ keysOf kvs.store) := by
  obtain ⟨hnd, hsync⟩ := goodState_of_reachable kvs d hr
  cases hd : kvs.dirty
  · rw [saveToDisk_not_dirty noFaults kvs d hd]
    obtain ⟨m, hm, hmnd, hg⟩ := hsync hd
    refine ⟨m, hm, hg, fun k => ?_⟩
    rw [mem_keysOf_iff, mem_keysOf_iff, hg k]
  · rw [saveToDisk_ok_eq noFaults kvs d hd rfl]
    refine ⟨decodeStore (encodeStore kvs.store), rfl,
      fun k => mapGet_decode_encode kvs.store hnd k, fun k => ?_⟩
    rw [mem_keysOf_iff, mem_keysOf_iff, mapGet_decode_encode kvs.store hnd k]

/-- C4 witness: the round-trip at the reachable state obtained by starting
on an absent snapshot file and setting one key. -/
theorem save_load_roundtrip_witness :
    ∃ m, loadFromDisk
        (saveToDisk noFaults ⟨[("a", "1")], true⟩ ⟨.absent, none⟩).disk.snapshot
        = .ok m ∧
      (∀ k, mapGet m k = mapGet [("a", "1")] k) ∧
      (∀ k, k ∈ keysOf m ↔ k ∈ keysOf [("a", "1")]) :=
  save_load_roundtrip ⟨[("a", "1")], true⟩ ⟨.absent, none⟩
    (Reachable.step (.set "a" "1") ⟨[], false⟩ ⟨.absent, none⟩
      (Reachable.start .absent ⟨[], false⟩ none rfl))

/-- C5: when the dirty flag is false, `saveToDisk` returns success at once,
performing no I/O and changing nothing; and after any successful
`saveToDisk`, a second call with no intervening write — under any fault
environment — is such a no-op, so two flushes in a row perform disk I/O at
most once. -/
theorem flush_idempotent (f₁ f₂ : SaveFaults) (kvs : KeyValueStore) (d : Disk) :
    (kvs.dirty = false →
      saveToDisk f₁ kvs d = ⟨kvs, d, .ok (), [], [d.snapshot]⟩) ∧
    ((saveToDisk f₁ kvs d).result = .ok () →
      saveToDisk f₂ (saveToDisk f₁ kvs d).kvs (saveToDisk f₁ kvs d).disk
        = ⟨(saveToDisk f₁ kvs d).kvs, (saveToDisk f₁ kvs d).disk, .ok (), [],
            [(saveToDisk f₁ kvs d).disk.snapshot]⟩) := by
  refine ⟨saveToDisk_not_dirty f₁ kvs d, ?_⟩
  intro hok
  have hdf : (saveToDisk f₁ kvs d).kvs.dirty = false := by
    cases hd : kvs.dirty
    · rw [saveToDisk_not_dirty f₁ kvs d hd]
      exact hd
    · cases hf : firstFault f₁ with
      | none => rw [saveToDisk_ok_eq f₁ kvs d hd hf]
      | some st =>
        exfalso
        have herr := (saveToDisk_err f₁ kvs d st hd hf).2.2.1
        rw [herr] at hok
        cases hok
  exact saveToDisk_not_dirty f₂ _ _ hdf

/-- C5 witness: after a fault-free flush of a dirty store, a second flush
returns success with an empty I/O list and an unchanged state. -/
theorem flush_idempotent_witness :
    saveToDisk noFaults
        (saveToDisk noFaults ⟨[("a", "1")], true⟩ ⟨.absent, none⟩).kvs
        (saveToDisk noFaults ⟨[("a", "1")], true⟩ ⟨.absent, none⟩).disk
      = ⟨(saveToDisk noFaults ⟨[("a", "1")], true⟩ ⟨.absent, none⟩).kvs,
          (saveToDisk noFaults ⟨[("a", "1")], true⟩ ⟨.absent, none⟩).disk, .ok (), [],
          [(saveToDisk noFaults ⟨[("a", "1")], true⟩ ⟨.absent, none⟩).disk.snapshot]⟩ :=
  (flush_idempotent noFaults noFaults ⟨[("a", "1")], true⟩ ⟨.absent, none⟩).2 (by rfl)

/-- C6: `Get` on the store built by a sequence of `Set` calls returns
exactly the last value written to the key (with found = true), returns
found = false with the zero value when the key was never written, a `Set`
is observed immediately — also when the value is the empty string — and a
`Set` leaves every other key unchanged. -/
theorem get_set_semantics (ops : List (String × String)) (k : String) :
    (lastWrite ops k = none → (runSets ops).Get k = ("", false)) ∧
    (∀ v, lastWrite ops k = some v → (runSets ops).Get k = (v, true)) ∧
    (∀ kvs v, (KeyValueStore.Set kvs k v).Get k = (v, true)) ∧
    (∀ kvs v k', k' ≠ k → (KeyValueStore.Set kvs k v).Get k' = kvs.Get k') := by
  refine ⟨?_, ?_, ?_, ?_⟩
  · intro h
    rw [KeyValueStore.Get, mapGet_runSets, h]
  · intro v h
    rw [KeyValueStore.Get, mapGet_runSets, h]
  · intro kvs v
    rw [KeyValueStore.Get]
    simp [KeyValueStore.Set, mapGet_mapSet]
  · intro kvs v k' hne
    have heq : mapGet (mapSet kvs.store k v) k' = mapGet kvs.store k' := by
      rw [mapGet_mapSet, if_neg (fun h => hne h.symm)]
    rw [KeyValueStore.Get, KeyValueStore.Get, KeyValueStore.Set, heq]

/-- C6 witness: a key never set reads back ("", false); the empty string
written by the latest `Set` to "a" reads back ("", true). -/
theorem get_set_semantics_witness :
    (runSets [("a", "1"), ("b", "2")]).Get "c" = ("", false) ∧
    (runSets [("a", "1"), ("a", "")]).Get "a" = ("", true) :=
  ⟨(get_set_semantics [("a", "1"), ("b", "2")] "c").1 (by rfl),
   (get_set_semantics [("a", "1"), ("a", "")] "a").2.1 "" (by rfl)⟩

/-- C7: after a sequence of `Set` calls on pairwise distinct keys starting
from the empty store, `Count` returns the number of keys set. -/
theorem count_distinct_sets (ops : List (String × String))
    (h : (ops.map Prod.fst).Nodup) :
    (runSets ops).Count = ops.length := by
  have hlen := length_foldl_mapSet ops [] (by simpa [keysOf] using h)
  rw [KeyValueStore.Count, runSets_store, hlen]
  simp

/-- C7 witness: two sets with distinct keys give count 2. -/
theorem count_distinct_sets_witness :
    (runSets [("a", "x"), ("b", "y")]).Count = 2 :=
  count_distinct_sets [("a", "x"), ("b", "y")] (by decide)

/-- C8: at startup, an absent snapshot file yields the empty store and the
process starts; a readable snapshot decodes into the store; and an open or
decode failure is fatal — `startProcess` yields no running process. -/
theorem load_startup_semantics :
    startProcess .absent = some ⟨[], false⟩ ∧
    (∀ entries, startProcess (.valid entries) = some ⟨decodeStore entries, false⟩) ∧
    startProcess .unreadable = none ∧
    startProcess .corrupt = none ∧
    loadFromDisk .absent = .ok [] ∧
    loadFromDisk .unreadable = .error .openFailed ∧
    loadFromDisk .corrupt = .error .decodeFailed ∧
    (∀ entries, loadFromDisk (.valid entries) = .ok (decodeStore entries)) :=
  ⟨rfl, fun _ => rfl, rfl, rfl, rfl, rfl, rfl, fun _ => rfl⟩

/-- C9: `/set` answers 405 on a non-POST method, 400 on an unreadable body,
unparsable JSON, or an empty key — leaving the store unchanged in each of
those cases — and otherwise stores the pair (any value, including the
empty string) and answers 200 with status OK. -/
theorem handleSet_semantics (kvs : KeyValueStore) (r : SetHttpRequest) :
    (r.method ≠ .POST →
      handleSet kvs r = (kvs, 405, .errorMsg "Method not allowed")) ∧
    (r.method = .POST → r.bodyReadOk = false →
      handleSet kvs r = (kvs, 400, .errorMsg "Error reading request body")) ∧
    (r.method = .POST → r.bodyReadOk = true → r.parsedBody = none →
      handleSet kvs r = (kvs, 400, .errorMsg "Error parsing JSON")) ∧
    (∀ req, r.method = .POST → r.bodyReadOk = true → r.parsedBody = some req →
      req.key = "" → handleSet kvs r = (kvs, 400, .errorMsg "Missing key")) ∧
    (∀ req, r.method = .POST → r.bodyReadOk = true → r.parsedBody = some req →
      req.key ≠ "" →
      handleSet kvs r = (kvs.Set req.key req.value, 200, .okStatus) ∧
      mapGet (kvs.Set req.key req.value).store req.key = some req.value) := by
  refine ⟨?_, ?_, ?_, ?_, ?_⟩
  · intro h
    simp [handleSet, h]
  · intro hm hb
    simp [handleSet, hm, hb]
  · intro hm hb hp
    simp [handleSet, hm, hb, hp]
  · intro req hm hb hp hk
    simp [handleSet, hm, hb, hp, hk]
  · intro req hm hb hp hk
    refine ⟨by simp [handleSet, hm, hb, hp, hk], ?_⟩
    rw [KeyValueStore.Set]
    simp [mapGet_mapSet]

/-- C9 witness: a GET is rejected with 405 leaving the store alone, and a
well-formed POST stores its pair and answers 200 OK. -/
theorem handleSet_semantics_witness :
    handleSet ⟨[], false⟩ ⟨.GET, true, none⟩
      = (⟨[], false⟩, 405, .errorMsg "Method not allowed") ∧
    handleSet ⟨[], false⟩ ⟨.POST, true, some ⟨"a", "1"⟩⟩
      = (KeyValueStore.Set ⟨[], false⟩ "a" "1", 200, .okStatus) ∧
    mapGet (KeyValueStore.Set ⟨[], false⟩ "a" "1").store "a" = some "1" :=
  ⟨(handleSet_semantics ⟨[], false⟩ ⟨.GET, true, none⟩).1 (by decide),
   (handleSet_semantics ⟨[], false⟩ ⟨.POST, true, some ⟨"a", "1"⟩⟩).2.2.2.2
     ⟨"a", "1"⟩ rfl rfl rfl (by decide)⟩

/-- C10: started from the same record set, every sequence of Set/Get/Count
calls returns the same values and produces the same final record set in
the `src/main.go` store and in the `src/unnamed/part_000` store. -/
theorem store_variants_equiv (m : List (String × String)) (dirty : Bool)
    (ops : List StoreOp) :
    (runStore ⟨m, dirty⟩ ops).1.store = (Part000.runStore ⟨m⟩ ops).1.store ∧
    (runStore ⟨m, dirty⟩ ops).2 = (Part000.runStore ⟨m⟩ ops).2 := by
  induction ops generalizing m dirty with
  | nil => exact ⟨rfl, rfl⟩
  | cons op ops ih =>
    cases op with
    | set k v =>
      have h := ih (mapSet m k v) true
      exact ⟨by simpa [runStore, Part000.runStore, stepStore, Part000.stepStore,
          KeyValueStore.Set, Part000.KeyValueStore.Set] using h.1,
        by simpa [runStore, Part000.runStore, stepStore, Part000.stepStore,
          KeyValueStore.Set, Part000.KeyValueStore.Set] using h.2⟩
    | get k =>
      have h := ih m dirty
      exact ⟨by simpa [runStore, Part000.runStore, stepStore, Part000.stepStore] using h.1,
        by simpa [runStore, Part000.runStore, stepStore, Part000.stepStore,
          KeyValueStore.Get, Part000.KeyValueStore.Get] using h.2⟩
    | count =>
      have h := ih m dirty
      exact ⟨by simpa [runStore, Part000.runStore, stepStore, Part000.stepStore] using h.1,
        by simpa [runStore, Part000.runStore, stepStore, Part000.stepStore,
          KeyValueStore.Count, Part000.KeyValueStore.Count] using h.2⟩

end GoKV
